import Mathlib

/-!
Verification of the mokapot core (dataset labeling, best-feature search,
score calibration, cross-validation splitting, and picked-protein
validation) against its natural-language specification.

The Python sources are shallowly embedded: pandas/numpy arrays become
Lean lists, floats become rationals (with an `Option` marker for the
non-finite values numpy produces on division by zero), and fallible
operations return `Except`.  The q-value estimator `qvalues.tdc` is not
part of the provided sources; it is modelled from the specification
(section 4.1) and marked as such below.
-/

deriving instance DecidableEq for Except

namespace Mokapot

/-- Embeds numpy boolean-mask assignment `xs[mask] = v` for equal-length
`xs` and `mask`: positions where the mask is true receive `v`. -/
def maskAssign (xs : List Int) (mask : List Bool) (v : Int) : List Int :=
  List.zipWith (fun x m => if m then v else x) xs mask

/-- Embeds a single numpy integer-index assignment `xs[i] = v`: a negative
index counts from the end, and an index out of range raises IndexError. -/
def fancySet (xs : List Int) (i : Int) (v : Int) : Except String (List Int) :=
  let j : Int := if i < 0 then (xs.length : Int) + i else i
  if 0 ≤ j ∧ j < (xs.length : Int) then .ok (xs.set j.toNat v)
  else .error "IndexError"

/-- Embeds numpy fancy-index assignment `xs[idxs] = v` with an integer
index array: the assignments happen position by position. -/
def fancyAssign (xs : List Int) (idxs : List Int) (v : Int) :
    Except String (List Int) :=
  idxs.foldl
    (fun acc i =>
      match acc with
      | .error e => .error e
      | .ok l => fancySet l i v)
    (.ok xs)

/-- Stable insertion of one element into a list ordered by `le`. -/
def insertByKey (le : α → α → Bool) (x : α) : List α → List α
  | [] => [x]
  | y :: ys => if le x y then x :: y :: ys else y :: insertByKey le x ys

/-- Insertion sort by `le`. -/
def sortByKey (le : α → α → Bool) (l : List α) : List α :=
  l.foldr (insertByKey le) []

/-- Sorts score entries best-first: highest score first when `desc` is
true, lowest first otherwise. -/
def sortByScore (desc : Bool) (l : List (ℚ × Bool × Nat)) :
    List (ℚ × Bool × Nat) :=
  sortByKey (fun a b => if desc then decide (b.1 ≤ a.1) else decide (a.1 ≤ b.1)) l

/-- Groups consecutive entries with identical scores into tie blocks. -/
def scoreBlocks : List (ℚ × Bool × Nat) → List (List (ℚ × Bool × Nat))
  | [] => []
  | x :: xs =>
    match scoreBlocks xs with
    | [] => [[x]]
    | b :: bs =>
      match b with
      | [] => [x] :: bs
      | y :: _ => if x.1 = y.1 then (x :: b) :: bs else [x] :: b :: bs

/-- Walks the tie blocks best-first, accumulating decoy and target counts
over whole blocks, and emits the local FDR estimate
`(decoys_seen + 1) / max(targets_seen, 1)` clipped to at most 1 for each
block. -/
def blockFdrs : List (List (ℚ × Bool × Nat)) → Nat → Nat → List ℚ
  | [], _, _ => []
  | b :: bs, d, t =>
    let dB := (b.filter (fun e => !e.2.1)).length
    let tB := (b.filter (fun e => e.2.1)).length
    min 1 (((d + dB : Nat) + 1 : ℚ) / (max ((t + tB : Nat) : ℚ) 1)) ::
      blockFdrs bs (d + dB) (t + tB)

/-- Replaces each entry by the minimum of itself and everything after it,
turning local FDR values into monotone q-values. -/
def suffixMins : List ℚ → List ℚ
  | [] => []
  | f :: rest =>
    match suffixMins rest with
    | [] => [f]
    | m :: ms => min f m :: m :: ms

/-- Modelled from the spec: the linear target-decoy-competition q-value
estimator `qvalues.tdc`, whose source module is not included under src/.
Per spec section 4.1: sort entries by score in the given direction, walk
best-to-worst accumulating decoy and target counts (whole tie blocks at a
time, every member of a tie block receiving the same value), compute the
clipped local FDR `(decoys_seen + 1) / max(targets_seen, 1)`, convert to
q-values by a running minimum from the worst score to the best, and map
the result back to the original input order. -/
def tdc (scores : List ℚ) (target : List Bool) (desc : Bool) : List ℚ :=
  let entries := (List.range scores.length).map
    (fun i => ((scores.get? i).getD 0, ((target.get? i).getD false, i)))
  let blocks := scoreBlocks (sortByScore desc entries)
  let qs := suffixMins (blockFdrs blocks 0 0)
  let assoc := (blocks.zip qs).foldl
    (fun acc p => acc ++ p.1.map (fun e => (e.2.2, p.2))) []
  (List.range scores.length).map
    (fun i => ((assoc.find? (fun p => p.1 == i)).map Prod.snd).getD 1)

/-- Embeds the tail of `LinearPsmDataset._update_labels` (dataset.py
lines 355-359), after the q-values have been computed:
`unlabeled = logical_and(qvals > fdr_threshold, targets)`,
`new_labels = ones(len(qvals))`, `new_labels[~targets] = -1`,
`new_labels[unlabeled] = 0`. -/
def labelsFromQvals (qvals : List ℚ) (targets : List Bool) (thr : ℚ) :
    List Int :=
  let unlabeled := List.zipWith (fun q t => decide (q > thr) && t) qvals targets
  let n1 := List.replicate qvals.length (1 : Int)
  let n2 := maskAssign n1 (targets.map (fun t => !t)) (-1)
  maskAssign n2 unlabeled 0

/-- Embeds `LinearPsmDataset._update_labels` (dataset.py lines 329-359):
q-values from `qvalues.tdc` on the true target status, then the labeling
step. -/
def linear_update_labels (scores : List ℚ) (targets : List Bool) (thr : ℚ)
    (desc : Bool) : List Int :=
  labelsFromQvals (tdc scores targets desc) targets thr

/-- Embeds the `targets` property of `CrossLinkedPsmDataset` (dataset.py
lines 448-452): the boolean target columns of each PSM pair are coerced to
bool and summed, giving a count in 0..2. -/
def crosslinkTargets (pairs : List (Bool × Bool)) : List Nat :=
  pairs.map (fun p => (cond p.1 1 0) + (cond p.2 1 0))

/-- Embeds the tail of `CrossLinkedPsmDataset._update_labels` (dataset.py
lines 479-485) after the q-values: `unlabeled = logical_and(qvals >
fdr_threshold, targets)`, `new_labels = ones(len(qvals))`,
`new_labels[~targets] = -1`, `new_labels[unlabeled] = 0`.  Because
`targets` here is an integer array (the sum of two boolean columns), the
numpy expression `~targets` is the bitwise complement `-(t + 1)`, and
indexing an array with it is fancy integer indexing, not a boolean mask.
The q-value array is a parameter because `qvalues.crosslink_tdc` is not
included under src/; the embedding covers every q-value array that
subroutine could return. -/
def crosslink_update_labels_from (qvals : List ℚ) (numTargets : List Nat)
    (thr : ℚ) : Except String (List Int) :=
  let unlabeled := List.zipWith
    (fun q t => decide (q > thr) && decide (t ≠ 0)) qvals numTargets
  let n1 := List.replicate qvals.length (1 : Int)
  match fancyAssign n1 (numTargets.map (fun t => -((t : Int) + 1))) (-1) with
  | .error e => .error e
  | .ok n2 => .ok (maskAssign n2 unlabeled 0)

/-- Counts the entries of a label array equal to 1, embedding
`(labs == 1).sum()` for one column. -/
def countOnes (ls : List Int) : Nat :=
  (ls.filter (fun x => decide (x = (1 : Int)))).length

/-- The number of PSMs passing the threshold when one feature column is
used as the score with the given direction. -/
def countPassing (scores : List ℚ) (targets : List Bool) (thr : ℚ)
    (desc : Bool) : Nat :=
  countOnes (linear_update_labels scores targets thr desc)

/-- One step of the first-maximum scan: a later element replaces the
current candidate only when its measure is strictly larger. -/
def argmaxStep (m : α → Nat) (acc : Option α) (x : α) : Option α :=
  match acc with
  | none => some x
  | some b => if m b < m x then some x else some b

/-- First element attaining the maximal measure, embedding the combination
of `num_passing.idxmax()` (first occurrence of the maximum) followed by
selection of that column; `none` on an empty list, where `idxmax` raises
ValueError. -/
def argmaxFirst (m : α → Nat) (l : List α) : Option α :=
  l.foldl (argmaxStep m) none

/-- For each feature column: its name, the label array obtained by using
it as the score, and the number of +1 labels.  Embeds
`self.features.apply(self._update_labels, ...)` together with
`(labs == 1).sum()`. -/
def featureLabelTriples (cols : List (String × List ℚ)) (targets : List Bool)
    (thr : ℚ) (desc : Bool) : List (String × List Int × Nat) :=
  cols.map (fun pr =>
    (pr.1, linear_update_labels pr.2 targets thr desc,
      countPassing pr.2 targets thr desc))

/-- One direction pass of `_find_best_feature`: the first feature column
attaining the maximal number of +1 labels, with its label array and
count.  `none` exactly when there are no feature columns. -/
def fbfPass (cols : List (String × List ℚ)) (targets : List Bool) (thr : ℚ)
    (desc : Bool) : Option (String × List Int × Nat) :=
  argmaxFirst (fun tr => tr.2.2) (featureLabelTriples cols targets thr desc)

/-- The Python error classes that `_find_best_feature` can raise:
ValueError (from `idxmax` on an empty sequence) and RuntimeError (no PSMs
below the threshold). -/
inductive PyErr where
  | valueError
  | runtimeError
deriving DecidableEq

/-- Embeds `PsmDataset._find_best_feature` (dataset.py lines 141-183).
The source iterates `desc` over `(True, False)` keeping the strict best
seen so far starting from `best_positives = 0`; with at least one feature
column each pass yields a first-maximum column, and the final result is
the pass-true candidate unless the pass-false count strictly exceeds it.
If neither pass produced a positive count, RuntimeError is raised.  With
zero feature columns, `idxmax` raises ValueError on the first pass. -/
def find_best_feature (cols : List (String × List ℚ)) (targets : List Bool)
    (thr : ℚ) : Except PyErr (String × Nat × List Int) :=
  match fbfPass cols targets thr true with
  | none => .error .valueError
  | some (f1, l1, c1) =>
    match fbfPass cols targets thr false with
    | none => .error .valueError
    | some (f2, l2, c2) =>
      if 0 < c1 then
        if c1 < c2 then .ok (f2, c2, l2) else .ok (f1, c1, l1)
      else if 0 < c2 then .ok (f2, c2, l2)
      else .error .runtimeError

/-- The scores at positions whose label equals `v`, embedding
`scores[labels == v]`. -/
def selectByLabel (scores : List ℚ) (labels : List Int) (v : Int) : List ℚ :=
  ((scores.zip labels).filter (fun p => decide (p.2 = v))).map Prod.fst

/-- Embeds `np.min`: ValueError on an empty array. -/
def npMin : List ℚ → Except String ℚ
  | [] => .error "ValueError: zero-size array to reduction operation"
  | h :: t => .ok (t.foldl min h)

/-- Embeds `np.median`: `none` stands for the nan produced on an empty
array; otherwise the middle element of the sorted values, or the average
of the two middle elements for even length. -/
def npMedian (l : List ℚ) : Option ℚ :=
  let s := sortByKey (fun a b => decide (a ≤ b)) l
  let n := l.length
  if n = 0 then none
  else if n % 2 = 1 then some ((s.get? (n / 2)).getD 0)
  else some ((((s.get? (n / 2 - 1)).getD 0) + ((s.get? (n / 2)).getD 0)) / 2)

/-- Float division as numpy performs it inside `_calibrate_scores`:
division by zero does not raise, it produces a non-finite value (inf or
nan, under a runtime warning), modelled as `none`. -/
def pyDiv (num den : ℚ) : Option ℚ :=
  if den = 0 then none else some (num / den)

/-- Embeds `PsmDataset._calibrate_scores` (dataset.py lines 185-212):
labels from `_update_labels`, the target anchor `np.min(scores[labels ==
1])` (ValueError when no label is +1), the decoy anchor
`np.median(scores[labels == -1])` (nan when no label is -1, propagating
to a non-finite result everywhere), and the affine map
`(scores - target_score) / (target_score - decoy_score)`. -/
def calibrate_scores (scores : List ℚ) (targets : List Bool) (thr : ℚ)
    (desc : Bool) : Except String (List (Option ℚ)) :=
  match npMin (selectByLabel scores
      (linear_update_labels scores targets thr desc) 1) with
  | .error e => .error e
  | .ok t =>
    match npMedian (selectByLabel scores
        (linear_update_labels scores targets thr desc) (-1)) with
    | none => .ok (scores.map (fun _ => none))
    | some d => .ok (scores.map (fun s => pyDiv (s - t) (t - d)))

/-- Distinct-key scan with an accumulator of keys already seen. -/
def firstKeysAux [DecidableEq K] : List K → List K → List K
  | [], _ => []
  | k :: ks, seen =>
    if k ∈ seen then firstKeysAux ks seen
    else k :: firstKeysAux ks (k :: seen)

/-- The distinct keys of a list in order of first appearance. -/
def firstKeys [DecidableEq K] (l : List K) : List K :=
  firstKeysAux l []

/-- The row positions carrying the key `k`, in ascending order, embedding
one group of `data.groupby(spectrum_columns).indices`. -/
def groupFor [DecidableEq K] (spectra : List K) (k : K) : List Nat :=
  (List.range spectra.length).filter (fun i => decide (spectra.get? i = some k))

/-- Embeds `self.data.groupby(cols, sort=False).indices.values()`: for
each distinct spectrum key in order of appearance, the positions of all
rows carrying that key. -/
def groupbyIndices [DecidableEq K] (spectra : List K) : List (List Nat) :=
  (firstKeys spectra).map (groupFor spectra)

/-- Embeds the Python slice comprehension
`[scans[i:i+num] for i in range(0, len(scans), num)]` for `num >= 1`:
`range(0, len, num)` has `ceil(len / num)` elements. -/
def chunkList (num : Nat) (l : List α) : List (List α) :=
  (List.range ((l.length + num - 1) / num)).map
    (fun i => (l.drop (i * num)).take num)

/-- Embeds `utils.flatten` (utils.py lines 24-26), which chains the index
groups of one split into a single list. -/
def flatten (split : List (List Nat)) : List Nat :=
  List.flatten split

/-- Embeds `PsmDataset._split` (dataset.py lines 239-247) applied to the
already shuffled group list `scans` (the in-place `np.random.shuffle` is
modelled by quantifying over permutations of the groupby output):
`num = len(scans) // folds` (ZeroDivisionError when `folds` is 0), the
slicing (`range` raises ValueError when its step `num` is 0), the merge of
an undersized final chunk into the one before it (`splits[-1]` and
`splits[-2]` raise IndexError when absent), and flattening each chunk. -/
def split_groups (scans : List (List Nat)) (folds : Nat) :
    Except String (List (List Nat)) :=
  if folds = 0 then .error "ZeroDivisionError"
  else if scans.length / folds = 0 then
    .error "ValueError: range arg 3 must not be zero"
  else
    match (chunkList (scans.length / folds) scans).reverse with
    | [] => .error "IndexError"
    | [single] =>
      if single.length < scans.length / folds then .error "IndexError"
      else .ok ((chunkList (scans.length / folds) scans).map flatten)
    | last :: prev :: rest =>
      if last.length < scans.length / folds then
        .ok ((((prev ++ last) :: rest).reverse).map flatten)
      else .ok ((chunkList (scans.length / folds) scans).map flatten)

/-- One row of the peptide table handled by `verify_match`: the target
flag, the stripped sequence, and the protein-group cell (`none` embeds a
NaN left by a failed `peptide_map` lookup).  The protein field plays the
role of the `mokapot protein group` column of the linear picked-protein
path. -/
structure PepRow where
  target : Bool
  stripped : String
  protein : Option String
deriving DecidableEq

/-- The protein-database capability consumed by `verify_match`. -/
structure ProteinDB where
  has_decoys : Bool
  shared_peptides : List String
  protein_map : List (String × String)
deriving DecidableEq

/-- Embeds verify_match lines 231-236 (picked_protein.py):
`unmatched = pd.isna(peptides[protein_column])`, then, when the database
has no decoys, the mask assignment
`unmatched[~peptides[target_column]] = False` clears the flag on every
decoy row. -/
def unmatchedFlags (rows : List PepRow) (hasDecoys : Bool) : List Bool :=
  let u := rows.map (fun r => r.protein.isNone)
  if hasDecoys then u
  else List.zipWith (fun flag r => if r.target = false then false else flag) u rows

/-- Dictionary lookup with default, embedding
`proteins.protein_map.get(x, x)`. -/
def lookupDefault (m : List (String × String)) (k : String) : String :=
  ((m.find? (fun p => p.1 == k)).map Prod.snd).getD k

/-- First component of `str.split(",")`, embedding
`.str.split(",", expand=True)[0]`. -/
def firstSplitComma (s : String) : String :=
  (s.splitOn ",").headD s

/-- Embeds `verify_match` (picked_protein.py lines 211-281), specialised
to the linear picked-protein call where the protein column is the
`mokapot protein group` column (the `PepRow.protein` field).  The flagged
rows are collected, the flags against the shared-peptide set computed,
then: ValueError when the unexcused flagged fraction exceeds 10 percent of
all peptides; when the database has decoys, ValueError when
`unmatched_prots[target_column][~shared].sum()` (the sum of the target
column over unexcused flagged rows) exceeds 5 percent of all decoys.
Dividing by a zero decoy count in numpy yields inf when that summed
numerator is positive (inf compares greater than 0.05, so the check
fires) and nan when the numerator is also zero (nan compares false, so
it does not); the zero-denominator disjunct models exactly this.
Surviving rows keep their flag cleared and are annotated with the
resolved leading accession. -/
def verify_match (rows : List PepRow) (db : ProteinDB) :
    Except String (List (PepRow × Option String)) :=
  let unmatched := unmatchedFlags rows db.has_decoys
  let pairs := rows.zip unmatched
  let unmatchedProts := (pairs.filter (fun p => p.2)).map Prod.fst
  let sharedFlags := unmatchedProts.map
    (fun r => db.shared_peptides.contains r.stripped)
  let sharedUnmatched := (sharedFlags.filter (fun b => !b)).length
  if sharedUnmatched ≠ 0 ∧
      ((sharedUnmatched : ℚ) / (rows.length : ℚ) > 1/10) then
    .error "ValueError: Fewer than 90 percent of all peptides could be matched"
  else
    let numUnmatchedDecoys := ((((unmatchedProts.zip sharedFlags).filter
          (fun p => !p.2)).map Prod.fst).filter
            (fun r => r.target)).length
    let totalDecoys := (rows.filter (fun r => !r.target)).length
    let decoyCheckFails :=
      db.has_decoys ∧
        ((totalDecoys = 0 ∧ numUnmatchedDecoys ≠ 0)
          ∨ (totalDecoys ≠ 0
              ∧ (numUnmatchedDecoys : ℚ) / (totalDecoys : ℚ) > 1/20))
    if decoyCheckFails then
      .error "ValueError: Fewer than 5 percent of decoy peptides could be mapped"
    else
      .ok ((pairs.filter (fun p => !p.2)).map
        (fun p => (p.1, p.1.protein.map
          (fun s => lookupDefault db.protein_map (firstSplitComma s)))))

/-- The number of unmapped-and-unexcused decoy peptides as the claim and
the specification describe it (spec-side definition, for comparison with
the quantity the code actually computes). -/
def specUnmatchedUnexcusedDecoys (rows : List PepRow) (db : ProteinDB) : Nat :=
  (rows.filter (fun r =>
    r.protein.isNone && !r.target && !(db.shared_peptides.contains r.stripped))).length

/-- First index of a regex closer `]` or `)` reachable without crossing a
newline (the lazy `.*?` cannot match a newline). -/
def findCloser : List Char → Option Nat
  | [] => none
  | c :: rest =>
    if c = ']' ∨ c = ')' then some 0
    else if c = '\n' then none
    else (findCloser rest).map (fun j => j + 1)

/-- Embeds the repeated substitution
`str.replace(r"[\[\(].*?[\]\)]", "")`: scanning left to right, an opener
`[` or `(` together with everything up to the nearest closer `]` or `)`
is removed, and scanning resumes after the removed block; an opener with
no reachable closer is kept. -/
def removeBracketsAux : Nat → List Char → List Char
  | 0, l => l
  | _, [] => []
  | fuel + 1, c :: rest =>
    if c = '[' ∨ c = '(' then
      match findCloser rest with
      | some j => removeBracketsAux fuel (rest.drop (j + 1))
      | none => c :: removeBracketsAux fuel rest
    else c :: removeBracketsAux fuel rest

/-- Entry point of the bracket-block removal; every step consumes at
least one character, so fuel equal to the length always suffices. -/
def removeBrackets (l : List Char) : List Char :=
  removeBracketsAux l.length l

/-- Index of the first `.` character. -/
def firstDotIdx : List Char → Option Nat
  | [] => none
  | c :: rest =>
    if c = '.' then some 0 else (firstDotIdx rest).map (fun j => j + 1)

/-- Embeds `str.replace(r"^.*?\.", "")`: the shortest prefix ending in a
dot is removed, provided the lazy `.*?` does not have to cross a
newline. -/
def dropLeadingFlank (l : List Char) : List Char :=
  match firstDotIdx l with
  | none => l
  | some j => if '\n' ∈ l.take j then l else l.drop (j + 1)

/-- The position where the regex anchor matches: the end of the string,
or just before one final trailing newline. -/
def dollarPos (l : List Char) : Nat :=
  if l.getLast? = some '\n' then l.length - 1 else l.length

/-- First index `i` holding a `.` from which the lazy `.*?` reaches the
end anchor without crossing a newline. -/
def trailStart (endPos : Nat) : List Char → Nat → Option Nat
  | [], _ => none
  | c :: rest, i =>
    if c = '.' ∧ '\n' ∉ rest.take (endPos - i - 1) then some i
    else trailStart endPos rest (i + 1)

/-- Embeds `str.replace(r"\..*?$", "")`: from the first dot that can
reach the end anchor, everything up to the anchor is removed. -/
def dropTrailingFlank (l : List Char) : List Char :=
  match trailStart (dollarPos l) l 0 with
  | none => l
  | some j => l.take j ++ l.drop (dollarPos l)

/-- The three regex substitutions of `strip_peptide` applied to one
peptide string, in source order: bracketed blocks, leading flank,
trailing flank. -/
def stripSeq (s : String) : String :=
  String.mk (dropTrailingFlank (dropLeadingFlank (removeBrackets s.data)))

/-- The ASCII lowercase range matched by the regex `[a-z]`. -/
def isLowerAscii (c : Char) : Bool :=
  'a' ≤ c && c ≤ 'z'

/-- Embeds Python `str.islower` on ASCII input: at least one lowercase
letter and no uppercase letter. -/
def pyIslower (s : String) : Bool :=
  s.data.any Char.isLower && s.data.all (fun c => !c.isUpper)

/-- Removes the characters matched by the regex `[a-z]`. -/
def dropLowerAscii (s : String) : String :=
  String.mk (s.data.filter (fun c => !isLowerAscii c))

/-- Embeds `strip_peptide` (picked_protein.py lines 182-208).  The
substitutions run per element, but the lowercase test is
`all(seqs.str.islower())` over the whole series; in that branch the
source executes `seqs.upper()`, and a pandas Series has no `upper`
attribute, so the call raises AttributeError (modelled as `none`).
Otherwise lowercase letters are dropped from every element. -/
def strip_peptide (ps : List String) : Option (List String) :=
  let seqs := ps.map stripSeq
  if seqs.all pyIslower then none else some (seqs.map dropLowerAscii)

/-- One table cell, covering the value kinds that matter to the frame
claims: integers, booleans, strings and rationals. -/
inductive Cell where
  | int (n : Int)
  | bool (b : Bool)
  | str (s : String)
  | rat (q : ℚ)
deriving DecidableEq

/-- Embeds pandas `astype(bool)` on one cell: Python truthiness. -/
def astypeBool : Cell → Cell
  | .int n => .bool (decide (n ≠ 0))
  | .bool b => .bool b
  | .str s => .bool (decide (s ≠ ""))
  | .rat q => .bool (decide (q ≠ 0))

/-- The caller-visible table after `LinearPsmDataset.__init__`
(dataset.py line 322): `self._data` aliases the caller table `psms`, and
`self._data[target_column] = self._data[target_column].astype(bool)`
writes the coerced target column through that alias into the caller
table. -/
def linearInitCallerTable (tbl : List (String × List Cell))
    (targetCol : String) : List (String × List Cell) :=
  tbl.map (fun col =>
    if col.1 = targetCol then (col.1, col.2.map astypeBool) else col)

/-- Embeds the column-existence check of `PsmDataset.__init__`
(dataset.py lines 90-98): `missing_columns` is the list of booleans
`[c not in columns for c in used_columns]`, and the source raises exactly
when `not missing_columns`, that is when the boolean list itself is
empty. -/
def psmInitMissingCheck (tableCols : List String) (usedCols : List String) :
    Except String Unit :=
  let missing := usedCols.map (fun c => !(tableCols.contains c))
  if missing = [] then
    .error "ValueError: The following specified columns were not found"
  else .ok ()

/-- Embeds `LinearPsmDataset.__init__` (dataset.py lines 294-322): the
used columns assemble as target, peptide, protein, then spectrum columns;
the (inverted) existence check runs; finally the astype line reads the
target column (KeyError when it is absent) and writes it back coerced. -/
def linearInit (tbl : List (String × List Cell)) (targetCol : String)
    (spectrumCols : List String) (peptideCols : List String)
    (proteinCol : String) : Except String (List (String × List Cell)) :=
  match psmInitMissingCheck (tbl.map Prod.fst)
      (([targetCol] ++ peptideCols ++ [proteinCol]) ++ spectrumCols) with
  | .error e => .error e
  | .ok _ =>
    if (tbl.map Prod.fst).contains targetCol then
      .ok (linearInitCallerTable tbl targetCol)
    else .error "KeyError"

/-- Feature table of the worked five-PSM example. -/
def exScores : List ℚ := [5, 4, 3, 2, 1]

/-- Target flags of the worked five-PSM example. -/
def exTargets : List Bool := [true, true, false, true, false]

/-- Twenty-peptide table: eighteen matched targets and two unmatched
decoys, none shared. -/
def rows20 : List PepRow :=
  List.replicate 18 ⟨true, "T", some "P1"⟩ ++
    List.replicate 2 ⟨false, "D", none⟩

/-- One-hundred-peptide table: eighty-eight matched targets and twelve
unmatched targets, none shared. -/
def rows100 : List PepRow :=
  List.replicate 88 ⟨true, "T", some "P1"⟩ ++
    List.replicate 12 ⟨true, "U", none⟩

/-- Twenty-peptide table with no decoy rows at all: eighteen matched
targets and two unmatched targets, none shared.  Exercises the division
of a positive numerator by the zero decoy count. -/
def rows20t : List PepRow :=
  List.replicate 18 ⟨true, "T", some "P1"⟩ ++
    List.replicate 2 ⟨true, "U", none⟩

/-- A protein database that contains decoys. -/
def dbWithDecoys : ProteinDB := ⟨true, [], []⟩

/-- A PSM table missing the spectrum column `scan` that the constructor
call below specifies. -/
def tblC8 : List (String × List Cell) :=
  [("peptide", [Cell.str "A"]), ("protein", [Cell.str "P"]),
    ("Label", [Cell.int 1]), ("feat", [Cell.rat 5])]

/-- A complete PSM table whose target column holds the integer 1. -/
def tblC7 : List (String × List Cell) :=
  [("scan", [Cell.int 7]), ("peptide", [Cell.str "A"]),
    ("protein", [Cell.str "P"]), ("Label", [Cell.int 1]),
    ("feat", [Cell.rat 5])]

end Mokapot

namespace Mokapot

/-- Helper: the target-only branch of `unmatchedFlags` rewrites the
masked assignment into a pointwise rule. -/
theorem unmatchedFlags_false (rows : List PepRow) :
    List.zipWith (fun flag r => if r.target = false then false else flag)
        (rows.map (fun r => r.protein.isNone)) rows
      = rows.map (fun r => r.protein.isNone && (r.target || false)) := by
  induction rows with
  | nil => rfl
  | cons r rs ih =>
    simp only [List.map_cons, List.zipWith_cons_cons, ih]
    cases hr : r.target <;> simp [hr]

/-- C1: for the linear dataset, the label-update operation sends decoys to
-1 and targets to +1 or 0 according to the threshold, as the claim states
(shown on the worked examples, whose q-values are 1/2, 1/2, 2/3, 2/3, 1
and 1, 1 respectively); but for the cross-linked dataset the claim fails:
on three PSM pairs that are all full targets (target count 2, no decoy
anywhere) with any q-values below the threshold, the numpy expression
`new_labels[~targets] = -1` fancy-indexes with the integer array -3,-3,-3
and assigns -1 to the pair at index 0, so a non-decoy receives the label
-1. -/
theorem C1_update_labels_eval :
    linear_update_labels exScores exTargets 1 true = [1, 1, -1, 1, -1]
    ∧ linear_update_labels [2, 1] [false, true] (1/2) true = [-1, 0]
    ∧ crosslink_update_labels_from [0, 0, 0]
        (crosslinkTargets [(true, true), (true, true), (true, true)]) (1/100)
        = .ok [-1, 1, 1] := by
  refine ⟨?_, ?_, ?_⟩ <;> with_unfolding_all decide

/-- C3 counterexample: an unmapped decoy peptide in the target-only
database scenario is not flagged as unmatched, contradicting the claim
that a decoy with a missing mapping is flagged in every database
scenario. -/
theorem C3_unmatched_decoy_counterexample :
    unmatchedFlags [⟨false, "PEP", none⟩] false = [false]
    ∧ (PepRow.mk false "PEP" none).target = false
    ∧ (PepRow.mk false "PEP" none).protein.isNone = true := by
  refine ⟨?_, rfl, rfl⟩
  rfl

/-- C3 amended: a peptide is flagged as unmatched exactly when its
protein-group mapping is missing and it is either a target or the
database has decoys; that is, unmapped targets are always flagged, while
unmapped decoys are flagged only when the database has decoys and are
tolerated in a target-only database. -/
theorem C3_unmatched_flags_amended (rows : List PepRow) (hasDecoys : Bool) :
    unmatchedFlags rows hasDecoys
      = rows.map (fun r => r.protein.isNone && (r.target || hasDecoys)) := by
  cases hasDecoys with
  | true => simp [unmatchedFlags]
  | false =>
    simpa only [unmatchedFlags, Bool.false_eq_true, if_false]
      using unmatchedFlags_false rows

/-- C4: with a decoy-containing database, twenty peptides of which the
only two decoys are unmapped and unexcused (100 percent of decoys, far
above the claimed 5 percent tolerance), `verify_match` returns normally:
the code sums the target column over the unexcused unmatched rows, so the
decoy condition never fires there.  The 10 percent check itself behaves
as claimed: one hundred peptides with twelve unexcused unmatched ones
fail fatally.  Conversely, on twenty all-target peptides with two
unexcused unmatched ones (no decoy rows at all, so the claimed decoy
fraction is undefined and 2/20 sits exactly at the 10 percent boundary),
the mis-computed check does fire: the positive target sum divided by the
zero decoy count is inf, and the function raises. -/
theorem C4_verify_match_eval :
    specUnmatchedUnexcusedDecoys rows20 dbWithDecoys = 2
    ∧ (rows20.filter (fun r => !r.target)).length = 2
    ∧ ((2 : ℚ) / 2 > 1/20)
    ∧ (verify_match rows20 dbWithDecoys).isOk = true
    ∧ (verify_match rows100 dbWithDecoys).isOk = false
    ∧ (rows20t.filter (fun r => !r.target)).length = 0
    ∧ (verify_match rows20t dbWithDecoys).isOk = false := by
  refine ⟨?_, ?_, ?_, ?_, ?_, ?_, ?_⟩ <;> with_unfolding_all decide

/-- C5 counterexample: on a dataset with PSM rows but no feature columns,
no (feature, direction) combination exists, so no combination yields a
passing label, yet the search raises ValueError (from `idxmax` on an
empty sequence) rather than a RuntimeError-class error. -/
theorem C5_empty_features_counterexample :
    find_best_feature ([] : List (String × List ℚ)) [true] (1/100)
      = .error .valueError
    ∧ PyErr.valueError ≠ PyErr.runtimeError := by
  refine ⟨?_, by decide⟩
  with_unfolding_all decide

/-- C6 counterexample: on scores 5, 5 with one target and one decoy at
threshold 1, the target anchor (minimum score among +1 labels) and the
decoy anchor (median score among -1 labels) are both 5, yet score
calibration raises nothing: it returns a result whose entries are the
non-finite values numpy produces when dividing by the zero anchor gap. -/
theorem C6_equal_anchors_counterexample :
    npMin (selectByLabel [5, 5]
        (linear_update_labels [5, 5] [true, false] 1 true) 1) = .ok 5
    ∧ npMedian (selectByLabel [5, 5]
        (linear_update_labels [5, 5] [true, false] 1 true) (-1)) = some 5
    ∧ calibrate_scores [5, 5] [true, false] 1 true = .ok [none, none] := by
  refine ⟨?_, ?_, ?_⟩ <;> with_unfolding_all decide

/-- C6 amended: whenever the target anchor and the decoy anchor exist and
are equal, score calibration does not raise; it returns a result all of
whose entries are non-finite (the division by the zero anchor gap yields
inf or nan under a numpy warning, not an error). -/
theorem C6_calibrate_amended (scores : List ℚ) (targets : List Bool)
    (thr : ℚ) (desc : Bool) (t : ℚ)
    (hmin : npMin (selectByLabel scores
        (linear_update_labels scores targets thr desc) 1) = .ok t)
    (hmed : npMedian (selectByLabel scores
        (linear_update_labels scores targets thr desc) (-1)) = some t) :
    calibrate_scores scores targets thr desc
      = .ok (scores.map (fun _ => none)) := by
  simp only [calibrate_scores, hmin, hmed]
  simp [pyDiv, sub_self]

/-- C6 witness: the amended theorem applied to the concrete degenerate
input scores 5, 5 with one target and one decoy at threshold 1. -/
theorem C6_calibrate_witness :
    calibrate_scores [5, 5] [true, false] 1 true
      = .ok ([(5 : ℚ), 5].map (fun _ => none)) :=
  C6_calibrate_amended [5, 5] [true, false] 1 true 5
    (by with_unfolding_all decide) (by with_unfolding_all decide)

/-- C7 counterexample: constructing a linear dataset over a table whose
target column holds the integer 1 succeeds and coerces that column to
boolean through the alias `self._data`, so a cell of the table the caller
passed in has changed after construction. -/
theorem C7_mutation_counterexample :
    linearInit tblC7 "Label" ["scan"] ["peptide"] "protein"
      = .ok (linearInitCallerTable tblC7 "Label")
    ∧ linearInitCallerTable tblC7 "Label" ≠ tblC7 := by
  refine ⟨?_, by decide⟩
  rfl

/-- C7 amended: dataset construction is the one operation that writes
into the caller table, and its effect is exactly an in-place coercion of
the target column to boolean: the column names are unchanged, every
column other than the target column is unchanged cell for cell, and the
target column is mapped through `astype(bool)`; the other core
operations, including the decoy-column annotation of `verify_match`,
derive new data and leave their inputs untouched. -/
theorem C7_frame_amended (tbl : List (String × List Cell)) (tcol : String) :
    (linearInitCallerTable tbl tcol).map Prod.fst = tbl.map Prod.fst
    ∧ ((linearInitCallerTable tbl tcol).zip tbl).all
        (fun p => if p.2.1 = tcol
          then decide (p.1.2 = p.2.2.map astypeBool)
          else decide (p.1 = p.2)) = true := by
  constructor
  · simp only [linearInitCallerTable, List.map_map]
    apply List.map_congr_left
    intro a _
    by_cases h : a.1 = tcol <;> simp [h]
  · induction tbl with
    | nil => rfl
    | cons a l ih =>
      simp only [linearInitCallerTable, List.map_cons, List.zip_cons_cons,
        List.all_cons] at *
      refine (Bool.and_eq_true _ _).mpr ⟨?_, ih⟩
      by_cases h : a.1 = tcol <;> simp [h]

/-- C8: constructing a linear dataset over a table that lacks the
specified spectrum column `scan` raises no missing-column error at all:
the check builds a non-empty list of booleans and tests `if not
missing_columns`, which is false for every non-empty list, so the
ValueError branch (whose message would report the missing columns) is
reachable only when the list of specified columns is itself empty. -/
theorem C8_missing_columns_eval :
    (linearInit tblC8 "Label" ["scan"] ["peptide"] "protein").isOk = true
    ∧ ("scan" ∉ tblC8.map Prod.fst)
    ∧ psmInitMissingCheck ["a"] []
        = .error "ValueError: The following specified columns were not found" := by
  refine ⟨?_, by decide, by rfl⟩
  rfl

/-- C9 counterexample: in the series containing the peptides abc and ABC,
the first peptide consists entirely of lowercase residues, yet it is not
returned uppercased: because the lowercase test is applied to the whole
series (and ABC is not lowercase), the lowercase letters are instead
dropped, leaving the empty string. -/
theorem C9_lowercase_counterexample :
    strip_peptide ["abc", "ABC"] = some ["", "ABC"]
    ∧ ("" : String) ≠ "ABC" := by
  refine ⟨?_, by decide⟩
  rfl

/-- C9 amended: `strip_peptide` strips bracketed blocks and terminal
markers from each peptide, and then tests lowercase on the whole series,
not per peptide: when every stripped peptide in the series is entirely
lowercase the uppercase branch fails (a pandas Series has no `upper`
attribute, so `seqs.upper()` raises AttributeError and no series is
returned), and otherwise the remaining lowercase letters are dropped from
every peptide, including any fully-lowercase one; consequently no
returned peptide contains a lowercase letter. -/
theorem C9_strip_peptide_amended (ps : List String) :
    strip_peptide ps
      = (if (ps.map stripSeq).all pyIslower then none
         else some ((ps.map stripSeq).map dropLowerAscii))
    ∧ ((strip_peptide ps).getD []).all
        (fun s => s.data.all (fun c => !isLowerAscii c)) = true := by
  refine ⟨rfl, ?_⟩
  by_cases h : (ps.map stripSeq).all pyIslower
  · simp [strip_peptide, h]
  · simp only [strip_peptide, h, if_false, Option.getD_some,
      Bool.false_eq_true]
    simp only [List.all_eq_true]
    intro s hs
    simp only [List.mem_map] at hs
    obtain ⟨x, _, rfl⟩ := hs
    simp only [dropLowerAscii]
    intro c hc
    simp only [List.mem_filter] at hc
    exact hc.2

end Mokapot

namespace Mokapot

/-- Helper: folding the first-maximum step from an existing candidate
yields a candidate drawn from the start or the list, with maximal
measure. -/
theorem argmaxStep_foldl (m : α → Nat) :
    ∀ (l : List α) (b : α), ∃ r, l.foldl (argmaxStep m) (some b) = some r
      ∧ (r = b ∨ r ∈ l) ∧ m b ≤ m r ∧ ∀ x ∈ l, m x ≤ m r := by
  intro l
  induction l with
  | nil =>
    intro b
    exact ⟨b, rfl, Or.inl rfl, Nat.le_refl _, by intro x hx; cases hx⟩
  | cons x xs ih =>
    intro b
    simp only [List.foldl_cons]
    by_cases h : m b < m x
    · have hstep : argmaxStep m (some b) x = some x := by
        simp [argmaxStep, h]
      rw [hstep]
      obtain ⟨r, hr, hmem, hle, hall⟩ := ih x
      refine ⟨r, hr, ?_, Nat.le_trans (Nat.le_of_lt h) hle, ?_⟩
      · rcases hmem with rfl | hm
        · exact Or.inr (List.mem_cons_self _ _)
        · exact Or.inr (List.mem_cons_of_mem _ hm)
      · intro y hy
        rcases List.mem_cons.mp hy with rfl | hm
        · exact hle
        · exact hall y hm
    · have hstep : argmaxStep m (some b) x = some b := by
        simp [argmaxStep, h]
      rw [hstep]
      obtain ⟨r, hr, hmem, hle, hall⟩ := ih b
      refine ⟨r, hr, ?_, hle, ?_⟩
      · rcases hmem with rfl | hm
        · exact Or.inl rfl
        · exact Or.inr (List.mem_cons_of_mem _ hm)
      · intro y hy
        rcases List.mem_cons.mp hy with rfl | hm
        · exact Nat.le_trans (Nat.le_of_not_lt h) hle
        · exact hall y hm

/-- Helper: on a non-empty list, the first-maximum scan returns a member
whose measure dominates every element. -/
theorem argmaxFirst_spec (m : α → Nat) (l : List α) (hne : l ≠ []) :
    ∃ r, argmaxFirst m l = some r ∧ r ∈ l ∧ ∀ x ∈ l, m x ≤ m r := by
  cases l with
  | nil => exact absurd rfl hne
  | cons x xs =>
    obtain ⟨r, hr, hmem, hle, hall⟩ := argmaxStep_foldl m xs x
    refine ⟨r, ?_, ?_, ?_⟩
    · simpa [argmaxFirst, argmaxStep] using hr
    · rcases hmem with rfl | hm
      · exact List.mem_cons_self _ _
      · exact List.mem_cons_of_mem _ hm
    · intro y hy
      rcases List.mem_cons.mp hy with rfl | hm
      · exact hle
      · exact hall y hm

/-- Helper: with at least one feature column, each direction pass selects
a column whose +1-label count dominates all columns. -/
theorem fbfPass_spec (cols : List (String × List ℚ)) (targets : List Bool)
    (thr : ℚ) (d : Bool) (hne : cols ≠ []) :
    ∃ pr, pr ∈ cols
      ∧ fbfPass cols targets thr d
          = some (pr.1, linear_update_labels pr.2 targets thr d,
              countPassing pr.2 targets thr d)
      ∧ ∀ pr2 ∈ cols,
          countPassing pr2.2 targets thr d ≤ countPassing pr.2 targets thr d := by
  have hmapne : featureLabelTriples cols targets thr d ≠ [] := by
    simpa [featureLabelTriples] using hne
  obtain ⟨r, hr, hmem, hall⟩ := argmaxFirst_spec (fun tr => tr.2.2) _ hmapne
  rw [featureLabelTriples, List.mem_map] at hmem
  obtain ⟨pr, hpr, hpreq⟩ := hmem
  refine ⟨pr, hpr, ?_, ?_⟩
  · rw [fbfPass, hr, ← hpreq]
  · intro pr2 hpr2
    have hmem2 : (pr2.1, linear_update_labels pr2.2 targets thr d,
        countPassing pr2.2 targets thr d)
          ∈ featureLabelTriples cols targets thr d := by
      rw [featureLabelTriples, List.mem_map]
      exact ⟨pr2, hpr2, rfl⟩
    have h2 := hall _ hmem2
    rw [← hpreq] at h2
    exact h2

/-- C5 amended: for every dataset with at least one feature column, the
best-feature search raises a RuntimeError-class error if and only if no
(feature column, direction) combination yields a +1 label, it never
raises the ValueError that the zero-column case produces, and when it
returns it returns a feature name, the maximal +1-label count over all
combinations, and the label array of a combination of that feature
attaining that count. -/
theorem C5_find_best_feature_amended (cols : List (String × List ℚ))
    (targets : List Bool) (thr : ℚ) (hne : cols ≠ []) :
    (find_best_feature cols targets thr = .error .runtimeError ↔
      cols.all (fun pr => countPassing pr.2 targets thr true == 0
        && countPassing pr.2 targets thr false == 0) = true)
    ∧ find_best_feature cols targets thr ≠ .error .valueError
    ∧ ∀ f c ls, find_best_feature cols targets thr = .ok (f, c, ls) →
        0 < c
        ∧ (∃ pr, pr ∈ cols ∧ ∃ d, f = pr.1
            ∧ ls = linear_update_labels pr.2 targets thr d
            ∧ countPassing pr.2 targets thr d = c)
        ∧ ∀ pr ∈ cols, ∀ d, countPassing pr.2 targets thr d ≤ c := by
  obtain ⟨pa, hpaMem, hpassT, hmaxT⟩ := fbfPass_spec cols targets thr true hne
  obtain ⟨pb, hpbMem, hpassF, hmaxF⟩ := fbfPass_spec cols targets thr false hne
  have hallIff : (cols.all (fun pr => countPassing pr.2 targets thr true == 0
        && countPassing pr.2 targets thr false == 0) = true)
      ↔ ∀ pr ∈ cols, countPassing pr.2 targets thr true = 0
          ∧ countPassing pr.2 targets thr false = 0 := by
    simp [List.all_eq_true]
  have hunfold : find_best_feature cols targets thr =
      (if 0 < countPassing pa.2 targets thr true then
        if countPassing pa.2 targets thr true
            < countPassing pb.2 targets thr false then
          .ok (pb.1, countPassing pb.2 targets thr false,
            linear_update_labels pb.2 targets thr false)
        else .ok (pa.1, countPassing pa.2 targets thr true,
          linear_update_labels pa.2 targets thr true)
      else if 0 < countPassing pb.2 targets thr false then
        .ok (pb.1, countPassing pb.2 targets thr false,
          linear_update_labels pb.2 targets thr false)
      else .error .runtimeError) := by
    simp only [find_best_feature, hpassT, hpassF]
  by_cases h1 : 0 < countPassing pa.2 targets thr true
  · by_cases h2 : countPassing pa.2 targets thr true
        < countPassing pb.2 targets thr false
    · rw [hunfold, if_pos h1, if_pos h2]
      refine ⟨?_, fun h => Except.noConfusion h, ?_⟩
      · constructor
        · intro hcontra; exact Except.noConfusion hcontra
        · intro hall'
          exfalso
          have hz := (hallIff.mp hall') pa hpaMem
          omega
      · intro f c ls heq
        simp only [Except.ok.injEq, Prod.mk.injEq] at heq
        obtain ⟨hf, hc, hls⟩ := heq
        subst hf; subst hc; subst hls
        refine ⟨by omega, ⟨pb, hpbMem, false, rfl, rfl, rfl⟩, ?_⟩
        intro pr hpr d
        cases d with
        | true => have := hmaxT pr hpr; omega
        | false => exact hmaxF pr hpr
    · rw [hunfold, if_pos h1, if_neg h2]
      refine ⟨?_, fun h => Except.noConfusion h, ?_⟩
      · constructor
        · intro hcontra; exact Except.noConfusion hcontra
        · intro hall'
          exfalso
          have hz := (hallIff.mp hall') pa hpaMem
          omega
      · intro f c ls heq
        simp only [Except.ok.injEq, Prod.mk.injEq] at heq
        obtain ⟨hf, hc, hls⟩ := heq
        subst hf; subst hc; subst hls
        refine ⟨h1, ⟨pa, hpaMem, true, rfl, rfl, rfl⟩, ?_⟩
        intro pr hpr d
        cases d with
        | true => exact hmaxT pr hpr
        | false => have := hmaxF pr hpr; omega
  · by_cases h2 : 0 < countPassing pb.2 targets thr false
    · rw [hunfold, if_neg h1, if_pos h2]
      refine ⟨?_, fun h => Except.noConfusion h, ?_⟩
      · constructor
        · intro hcontra; exact Except.noConfusion hcontra
        · intro hall'
          exfalso
          have hz := (hallIff.mp hall') pb hpbMem
          omega
      · intro f c ls heq
        simp only [Except.ok.injEq, Prod.mk.injEq] at heq
        obtain ⟨hf, hc, hls⟩ := heq
        subst hf; subst hc; subst hls
        refine ⟨h2, ⟨pb, hpbMem, false, rfl, rfl, rfl⟩, ?_⟩
        intro pr hpr d
        cases d with
        | true => have := hmaxT pr hpr; omega
        | false => exact hmaxF pr hpr
    · rw [hunfold, if_neg h1, if_neg h2]
      refine ⟨?_, by decide, ?_⟩
      · constructor
        · intro _
          apply hallIff.mpr
          intro pr hpr
          have ht := hmaxT pr hpr
          have hf := hmaxF pr hpr
          omega
        · intro _; rfl
      · intro f c ls heq; exact Except.noConfusion heq

/-- C5 witness: on the worked five-PSM dataset with the single feature
column, some combination passes PSMs, so the amended theorem shows the
search does not raise the insufficient-data error. -/
theorem C5_find_best_feature_witness :
    find_best_feature [("f", exScores)] exTargets 1
      ≠ .error .runtimeError := by
  intro hcontra
  have h := ((C5_find_best_feature_amended [("f", exScores)] exTargets 1
      (by simp)).1).mp hcontra
  revert h
  with_unfolding_all decide

end Mokapot

namespace Mokapot

/-- Helper: membership in the distinct-key scan. -/
theorem mem_firstKeysAux [DecidableEq K] (x : K) :
    ∀ (l : List K) (seen : List K),
      x ∈ firstKeysAux l seen ↔ x ∈ l ∧ x ∉ seen := by
  intro l
  induction l with
  | nil => intro seen; simp [firstKeysAux]
  | cons k ks ih =>
    intro seen
    by_cases hk : k ∈ seen
    · simp only [firstKeysAux, if_pos hk]
      rw [ih seen]
      constructor
      · rintro ⟨hx, hs⟩; exact ⟨List.mem_cons_of_mem _ hx, hs⟩
      · rintro ⟨hx, hs⟩
        rcases List.mem_cons.mp hx with rfl | hm
        · exact absurd hk hs
        · exact ⟨hm, hs⟩
    · simp only [firstKeysAux, if_neg hk]
      constructor
      · intro hx
        rcases List.mem_cons.mp hx with rfl | hm
        · exact ⟨List.mem_cons_self _ _, hk⟩
        · obtain ⟨h1, h2⟩ := (ih _).mp hm
          refine ⟨List.mem_cons_of_mem _ h1, ?_⟩
          intro hc
          exact h2 (List.mem_cons_of_mem _ hc)
      · rintro ⟨hx, hs⟩
        rcases List.mem_cons.mp hx with rfl | hm
        · exact List.mem_cons_self _ _
        · by_cases hxk : x = k
          · subst hxk; exact List.mem_cons_self _ _
          · apply List.mem_cons_of_mem
            refine (ih _).mpr ⟨hm, ?_⟩
            intro hc
            rcases List.mem_cons.mp hc with h | h
            · exact hxk h
            · exact hs h

/-- Helper: the distinct-key scan produces no duplicates. -/
theorem nodup_firstKeysAux [DecidableEq K] :
    ∀ (l : List K) (seen : List K), (firstKeysAux l seen).Nodup := by
  intro l
  induction l with
  | nil => intro seen; simp [firstKeysAux]
  | cons k ks ih =>
    intro seen
    by_cases hk : k ∈ seen
    · simp only [firstKeysAux, if_pos hk]; exact ih seen
    · simp only [firstKeysAux, if_neg hk]
      refine List.nodup_cons.mpr ⟨?_, ih _⟩
      intro hc
      exact ((mem_firstKeysAux k ks (k :: seen)).mp hc).2
        (List.mem_cons_self _ _)

/-- Helper: membership in one spectrum group. -/
theorem groupFor_mem [DecidableEq K] (spectra : List K) (k : K) (i : Nat) :
    i ∈ groupFor spectra k ↔ i < spectra.length ∧ spectra.get? i = some k := by
  simp [groupFor, List.mem_filter, List.mem_range]

/-- Helper: over any duplicate-free key list covering every index of `l`,
the concatenation of the per-key filters is a permutation of `l`. -/
theorem partition_perm [DecidableEq K] (spectra : List K) :
    ∀ (ks : List K) (l : List Nat), ks.Nodup →
      (∀ i ∈ l, ∃ k ∈ ks, spectra.get? i = some k) →
      List.Perm (ks.map (fun k =>
        l.filter (fun i => decide (spectra.get? i = some k)))).flatten l := by
  intro ks
  induction ks with
  | nil =>
    intro l _ hcov
    cases l with
    | nil => simp
    | cons i l' =>
      obtain ⟨k, hk, _⟩ := hcov i (List.mem_cons_self _ _)
      cases hk
  | cons k ks ih =>
    intro l hnd hcov
    have hk_notin : k ∉ ks := (List.nodup_cons.mp hnd).1
    have hnd' : ks.Nodup := (List.nodup_cons.mp hnd).2
    have hmape : ks.map (fun k2 =>
          l.filter (fun i => decide (spectra.get? i = some k2)))
        = ks.map (fun k2 =>
            (l.filter (fun i => !(decide (spectra.get? i = some k)))).filter
              (fun i => decide (spectra.get? i = some k2))) := by
      apply List.map_congr_left
      intro k2 hk2
      have hne : k2 ≠ k := by rintro rfl; exact hk_notin hk2
      rw [List.filter_filter]
      apply List.filter_congr
      intro i _
      cases hdec : decide (spectra.get? i = some k2) with
      | false => rfl
      | true =>
        have hik2 : spectra.get? i = some k2 := of_decide_eq_true hdec
        have hik : decide (spectra.get? i = some k) = false := by
          apply decide_eq_false
          rw [hik2]
          intro hc
          exact hne (Option.some.inj hc)
        rw [hik]
        rfl
    simp only [List.map_cons, List.flatten_cons]
    rw [hmape]
    have hcov' : ∀ i ∈ l.filter (fun i => !(decide (spectra.get? i = some k))),
        ∃ k2 ∈ ks, spectra.get? i = some k2 := by
      intro i hi
      obtain ⟨hil, hfl⟩ := List.mem_filter.mp hi
      obtain ⟨k2, hk2, hik2⟩ := hcov i hil
      rcases List.mem_cons.mp hk2 with rfl | hm
      · exfalso
        rw [hik2] at hfl
        simp at hfl
      · exact ⟨k2, hm, hik2⟩
    have hperm2 := ih (l.filter (fun i => !(decide (spectra.get? i = some k))))
      hnd' hcov'
    exact (List.Perm.append_left _ hperm2).trans
      (List.filter_append_perm _ l)

/-- Helper: the spectrum groups partition the full index range. -/
theorem groupby_flatten_perm [DecidableEq K] (spectra : List K) :
    List.Perm (groupbyIndices spectra).flatten (List.range spectra.length) := by
  have hcov : ∀ i ∈ List.range spectra.length,
      ∃ k ∈ firstKeys spectra, spectra.get? i = some k := by
    intro i hi
    have hilt : i < spectra.length := List.mem_range.mp hi
    refine ⟨spectra.get ⟨i, hilt⟩, ?_, ?_⟩
    · exact (mem_firstKeysAux _ _ _).mpr ⟨List.get_mem _ _ _, by simp⟩
    · exact List.get?_eq_get hilt
  have h := partition_perm spectra (firstKeys spectra)
    (List.range spectra.length) (nodup_firstKeysAux _ _) hcov
  exact h

/-- Helper: chunking the empty list yields no chunks. -/
theorem chunkList_nil (num : Nat) (hnum : num ≠ 0) :
    chunkList num ([] : List α) = [] := by
  have h : (num - 1) / num = 0 := Nat.div_eq_of_lt (by omega)
  simp [chunkList, h]

/-- Helper: one chunking step on a non-empty list. -/
theorem chunkList_step (num : Nat) (hnum : num ≠ 0) (l : List α)
    (hl : l ≠ []) :
    chunkList num l = l.take num :: chunkList num (l.drop num) := by
  have hlen : 0 < l.length := List.length_pos.mpr hl
  have hcnt : (l.length + num - 1) / num
      = ((l.drop num).length + num - 1) / num + 1 := by
    rw [List.length_drop]
    rcases le_or_lt l.length num with hle | hlt
    · have h1 : l.length - num = 0 := Nat.sub_eq_zero_of_le hle
      rw [h1]
      have h2 : (0 + num - 1) / num = 0 := Nat.div_eq_of_lt (by omega)
      rw [h2]
      have h3 : 1 * num ≤ l.length + num - 1 := by omega
      have h4 : l.length + num - 1 < 2 * num := by omega
      rw [Nat.div_eq_of_lt_le h3 h4]
    · have heq : l.length + num - 1 = ((l.length - num) + num - 1) + num := by
        omega
      rw [heq, Nat.add_div_right _ (Nat.pos_of_ne_zero hnum)]
  unfold chunkList
  rw [hcnt, List.range_succ_eq_map]
  simp only [List.map_cons, List.map_map]
  congr 1
  · simp
  · apply List.map_congr_left
    intro i _
    simp only [Function.comp_apply]
    rw [List.drop_drop]
    congr 2
    rw [Nat.succ_mul, Nat.add_comm]

/-- Helper: the chunks concatenate back to the original list. -/
theorem chunkList_flatten_aux (num : Nat) (hnum : num ≠ 0) :
    ∀ (n : Nat) (l : List α), l.length ≤ n → (chunkList num l).flatten = l := by
  intro n
  induction n with
  | zero =>
    intro l hl
    have h0 : l = [] := List.length_eq_zero.mp (Nat.le_zero.mp hl)
    subst h0
    rw [chunkList_nil num hnum]
    rfl
  | succ n ih =>
    intro l hl
    by_cases h0 : l = []
    · subst h0; rw [chunkList_nil num hnum]; rfl
    · rw [chunkList_step num hnum l h0, List.flatten_cons]
      rw [ih (l.drop num) ?_]
      · exact List.take_append_drop num l
      · rw [List.length_drop]
        have hpos : 0 < l.length := List.length_pos.mpr h0
        have hnum' : 1 ≤ num := Nat.pos_of_ne_zero hnum
        omega

/-- Helper: the chunks concatenate back to the original list. -/
theorem chunkList_flatten (num : Nat) (hnum : num ≠ 0) (l : List α) :
    (chunkList num l).flatten = l :=
  chunkList_flatten_aux num hnum l.length l (Nat.le_refl _)

/-- Helper: every element of every chunk comes from the original list. -/
theorem chunkList_mem {num : Nat} {l : List α} {c : List α}
    (hc : c ∈ chunkList num l) : ∀ g ∈ c, g ∈ l := by
  intro g hg
  rw [chunkList] at hc
  obtain ⟨i, _, rfl⟩ := List.mem_map.mp hc
  exact List.mem_of_mem_drop (List.mem_of_mem_take hg)

/-- Helper: flattening a list of flattened chunks is flattening twice. -/
theorem flatten_map_flatten (L : List (List (List Nat))) :
    (L.map List.flatten).flatten = L.flatten.flatten := by
  induction L with
  | nil => rfl
  | cons a L ih => simp [List.flatten_append, ih]

/-- Helper: any chunk decomposition of the shuffled group list whose
chunks concatenate to a permutation of the groups, with every group
inside a chunk drawn from the shuffled list, produces flattened folds
that partition the index range and keep every spectrum group whole. -/
theorem split_result_props [DecidableEq K] (spectra : List K)
    (shuffled : List (List Nat)) (chunks : List (List (List Nat)))
    (hperm : List.Perm shuffled (groupbyIndices spectra))
    (hflat : List.Perm chunks.flatten shuffled)
    (hmem : ∀ c ∈ chunks, ∀ g ∈ c, g ∈ shuffled) :
    List.Perm (chunks.map List.flatten).flatten (List.range spectra.length)
    ∧ List.Pairwise List.Disjoint (chunks.map List.flatten)
    ∧ ∀ i j : Nat, i < spectra.length → spectra.get? i = spectra.get? j →
        ∀ f ∈ chunks.map List.flatten, (i ∈ f ↔ j ∈ f) := by
  have h1 : List.Perm (chunks.map List.flatten).flatten
      (List.range spectra.length) := by
    rw [flatten_map_flatten]
    exact (hflat.flatten).trans ((hperm.flatten).trans
      (groupby_flatten_perm spectra))
  refine ⟨h1, ?_, ?_⟩
  · have hnd : (chunks.map List.flatten).flatten.Nodup :=
      h1.nodup_iff.mpr (List.nodup_range _)
    exact (List.nodup_flatten.mp hnd).2
  · intro i j hi hkey f hf
    obtain ⟨c, hc, rfl⟩ := List.mem_map.mp hf
    have hgroups : ∀ g ∈ c, ∃ k, g = groupFor spectra k := by
      intro g hg
      have hgs : g ∈ groupbyIndices spectra :=
        (hperm.mem_iff).mp (hmem c hc g hg)
      rw [groupbyIndices] at hgs
      obtain ⟨k, _, hkg⟩ := List.mem_map.mp hgs
      exact ⟨k, hkg.symm⟩
    rw [List.mem_flatten, List.mem_flatten]
    constructor
    · rintro ⟨g, hg, hig⟩
      obtain ⟨k, rfl⟩ := hgroups g hg
      have h3 := (groupFor_mem spectra k i).mp hig
      have hkey' : spectra.get? j = some k := by rw [← hkey]; exact h3.2
      have hjlt : j < spectra.length := by
        rcases List.get?_eq_some.mp hkey' with ⟨h, _⟩
        exact h
      exact ⟨_, hg, (groupFor_mem spectra k j).mpr ⟨hjlt, hkey'⟩⟩
    · rintro ⟨g, hg, hjg⟩
      obtain ⟨k, rfl⟩ := hgroups g hg
      have h3 := (groupFor_mem spectra k j).mp hjg
      have hkey' : spectra.get? i = some k := by rw [hkey]; exact h3.2
      exact ⟨_, hg, (groupFor_mem spectra k i).mpr ⟨hi, hkey'⟩⟩

end Mokapot

namespace Mokapot

/-- C2: for every dataset, every permutation of its spectrum groups (the
in-place `np.random.shuffle`), and every fold count for which the split
operation returns a result, the flattened folds are a permutation of the
full row-index range (each index exactly once: no duplicates, no
omissions), the folds are pairwise disjoint, and any two rows sharing the
same spectrum key lie in the same folds. -/
theorem C2_split_partition {K : Type} [DecidableEq K] (spectra : List K)
    (shuffled : List (List Nat)) (folds : Nat) (res : List (List Nat))
    (hperm : List.Perm shuffled (groupbyIndices spectra))
    (hok : split_groups shuffled folds = .ok res) :
    List.Perm res.flatten (List.range spectra.length)
    ∧ List.Pairwise List.Disjoint res
    ∧ ∀ i j : Nat, i < spectra.length → spectra.get? i = spectra.get? j →
        ∀ f ∈ res, (i ∈ f ↔ j ∈ f) := by
  rw [split_groups] at hok
  by_cases hf : folds = 0
  · rw [if_pos hf] at hok; exact Except.noConfusion hok
  rw [if_neg hf] at hok
  by_cases hn : shuffled.length / folds = 0
  · rw [if_pos hn] at hok; exact Except.noConfusion hok
  rw [if_neg hn] at hok
  have hchunkflat : (chunkList (shuffled.length / folds) shuffled).flatten
      = shuffled := chunkList_flatten _ hn shuffled
  split at hok
  · exact Except.noConfusion hok
  · next single heq =>
    by_cases hlt : single.length < shuffled.length / folds
    · rw [if_pos hlt] at hok
      exact Except.noConfusion hok
    · rw [if_neg hlt] at hok
      injection hok with hres
      subst hres
      refine split_result_props spectra shuffled _ hperm ?_
        (fun c hc => chunkList_mem hc)
      rw [hchunkflat]
  · next last prev rest heq =>
    by_cases hlt : last.length < shuffled.length / folds
    · rw [if_pos hlt] at hok
      injection hok with hres
      subst hres
      have hlastmem : last ∈ chunkList (shuffled.length / folds) shuffled := by
        rw [← List.mem_reverse, heq]
        exact List.mem_cons_self _ _
      have hprevmem : prev ∈ chunkList (shuffled.length / folds) shuffled := by
        rw [← List.mem_reverse, heq]
        exact List.mem_cons_of_mem _ (List.mem_cons_self _ _)
      have hrestmem : ∀ c ∈ rest,
          c ∈ chunkList (shuffled.length / folds) shuffled := by
        intro c hcr
        rw [← List.mem_reverse, heq]
        exact List.mem_cons_of_mem _ (List.mem_cons_of_mem _ hcr)
      have hflatM : List.Perm
          ((((prev ++ last) :: rest).reverse).flatten) shuffled := by
        have e1 : List.Perm (((prev ++ last) :: rest).reverse).flatten
            ((prev ++ last) :: rest).flatten :=
          (List.reverse_perm _).flatten
        have e2 : List.Perm ((prev ++ last) :: rest).flatten
            (last :: prev :: rest).flatten := by
          simp only [List.flatten_cons]
          rw [← List.append_assoc]
          exact List.Perm.append_right _ List.perm_append_comm
        have e3 : List.Perm (last :: prev :: rest).flatten
            (chunkList (shuffled.length / folds) shuffled).flatten := by
          rw [← heq]
          exact (List.reverse_perm _).flatten
        have e4 : List.Perm
            (chunkList (shuffled.length / folds) shuffled).flatten
            shuffled := by
          rw [hchunkflat]
        exact ((e1.trans e2).trans e3).trans e4
      refine split_result_props spectra shuffled _ hperm hflatM ?_
      intro c hc g hg
      rw [List.mem_reverse] at hc
      rcases List.mem_cons.mp hc with rfl | hcr
      · rcases List.mem_append.mp hg with h | h
        · exact chunkList_mem hprevmem g h
        · exact chunkList_mem hlastmem g h
      · exact chunkList_mem (hrestmem c hcr) g hg
    · rw [if_neg hlt] at hok
      injection hok with hres
      subst hres
      refine split_result_props spectra shuffled _ hperm ?_
        (fun c hc => chunkList_mem hc)
      rw [hchunkflat]

/-- C2 witness: splitting the six-row, three-spectrum dataset into three
folds with the identity shuffle yields folds whose flattening is a
permutation of the index range 0..5. -/
theorem C2_split_partition_witness :
    List.Perm ([[0, 1], [2, 3], [4, 5]] : List (List Nat)).flatten
      (List.range ([0, 0, 1, 1, 2, 2] : List Nat).length) :=
  (C2_split_partition ([0, 0, 1, 1, 2, 2] : List Nat)
    (groupbyIndices [0, 0, 1, 1, 2, 2]) 3 [[0, 1], [2, 3], [4, 5]]
    (List.Perm.refl _) (by decide)).1

/-- C10: for every dataset whose number of distinct spectrum groups is
strictly smaller than the requested number of folds, the split operation
fails with an error (the `range` step `len(groups) // folds` is zero, or
the fold count itself is zero) and returns no partial result; and the
split is only defined when the number of spectrum groups is at least the
number of folds. -/
theorem C10_split_undersized {K : Type} [DecidableEq K] (spectra : List K)
    (shuffled : List (List Nat)) (folds : Nat)
    (hperm : List.Perm shuffled (groupbyIndices spectra)) :
    ((groupbyIndices spectra).length < folds →
        ∃ e, split_groups shuffled folds = .error e)
    ∧ ∀ res, split_groups shuffled folds = .ok res →
        folds ≤ (groupbyIndices spectra).length := by
  have hlen : shuffled.length = (groupbyIndices spectra).length :=
    hperm.length_eq
  constructor
  · intro hlt
    by_cases hf : folds = 0
    · exact ⟨"ZeroDivisionError", by rw [split_groups, if_pos hf]⟩
    · have hz : shuffled.length / folds = 0 := Nat.div_eq_of_lt (by omega)
      exact ⟨"ValueError: range arg 3 must not be zero",
        by rw [split_groups, if_neg hf, if_pos hz]⟩
  · intro res hres
    by_cases hf : folds = 0
    · rw [split_groups, if_pos hf] at hres
      exact Except.noConfusion hres
    · by_cases hz : shuffled.length / folds = 0
      · rw [split_groups, if_neg hf, if_pos hz] at hres
        exact Except.noConfusion hres
      · have h1 : 1 ≤ shuffled.length / folds := Nat.one_le_iff_ne_zero.mpr hz
        have h2 := (Nat.one_le_div_iff (Nat.pos_of_ne_zero hf)).mp h1
        omega

/-- C10 witness: a dataset with two spectrum groups split into three
folds fails. -/
theorem C10_split_undersized_witness :
    (split_groups (groupbyIndices ([0, 0, 1] : List Nat)) 3).isOk = false := by
  obtain ⟨e, he⟩ := (C10_split_undersized ([0, 0, 1] : List Nat)
    (groupbyIndices [0, 0, 1]) 3 (List.Perm.refl _)).1 (by decide)
  rw [he]
  rfl

end Mokapot
